import Mathlib

set_option maxRecDepth 8192

namespace ParseMath

/-! Shallow embedding of the parse-math repository: the error model
(src/error.rs), the lexer (src/lexer.rs), the AST model (src/ast.rs) and the
shunting-yard parser (src/shuntingyard.rs).

Modelling conventions:
* Rust `&str` text is a `List Char`; `u32` positions are `Nat` (a `u32`
  overflow would require an input of at least 2^32 characters and panics in
  overflow-checked builds, and no claim concerns such inputs).
* Byte-level slice panics (`&s[1..]` landing inside a multi-byte UTF-8
  character), `unwrap()` on `None`, failing `assert!`/`assert_eq!` and
  `panic!` are modelled as explicit `none` / `.panic` outcomes.
* `f64` payloads are kept as their matched literal text: Rust's
  `f64::from_str` succeeds on every string matched by `REGEX_NUMBER`
  restricted to ASCII digits (out-of-range rounds to infinity instead of
  failing), so the `?` on the conversion never fires, and no claim depends on
  float arithmetic.  The `\d` class of the Rust regex crate is Unicode-aware;
  it is modelled as the ASCII digits, which coincides on every input the
  claims quantify over.
-/


/-- Error model from src/error.rs.  `Float` wraps Rust's `ParseFloatError`,
modelled by its description string. -/
inductive ParseError where
  | Lex (msg : String)
  | Parse (msg : String)
  | Float (msg : String)
deriving DecidableEq

/-- The `Error::description` impl from src/error.rs. -/
def ParseError.description : ParseError → String
  | .Lex m => m
  | .Parse m => m
  | .Float m => m

/-- Token payloads from src/lexer.rs (`TokenType`).  `Number` keeps the
matched literal text in place of the parsed `f64` (see the header note). -/
inductive TokenType where
  | Number (lit : String)
  | Ident (s : String)
  | OpSingle (c : Char)
  | End
deriving DecidableEq

/-- `Token` from src/lexer.rs: a token type together with a text position. -/
structure Token where
  typ : TokenType
  pos : Nat
deriving DecidableEq

/-- `OPS_SINGLE` from src/lexer.rs. -/
def OPS_SINGLE : List Char := ['+', '-', '*', '/', '^', '!', '=', '(', ')']

/-- Rust `char::is_whitespace`: the Unicode `White_Space` property. -/
def isRustWhitespace (c : Char) : Bool :=
  (0x09 ≤ c.toNat && c.toNat ≤ 0x0D) || c.toNat == 0x20 || c.toNat == 0x85 ||
  c.toNat == 0xA0 || c.toNat == 0x1680 ||
  (0x2000 ≤ c.toNat && c.toNat ≤ 0x200A) || c.toNat == 0x2028 ||
  c.toNat == 0x2029 || c.toNat == 0x202F || c.toNat == 0x205F ||
  c.toNat == 0x3000

/-- Number of bytes of the UTF-8 encoding of a character. -/
def charUtf8Size (c : Char) : Nat :=
  if c.toNat < 0x80 then 1
  else if c.toNat < 0x800 then 2
  else if c.toNat < 0x10000 then 3
  else 4

/-- The optional `[+-]?` sign of `REGEX_NUMBER`: the consumed sign (if any)
and the remaining text. -/
def numSign : List Char → List Char × List Char
  | c :: rest => if c = '+' ∨ c = '-' then ([c], rest) else ([], c :: rest)
  | [] => ([], [])

/-- The optional `(?:\.\d*)?` group of `REGEX_NUMBER`. -/
def numFrac : List Char → List Char × List Char
  | '.' :: rest => ('.' :: rest.takeWhile Char.isDigit, rest.dropWhile Char.isDigit)
  | cs => ([], cs)

/-- The optional `(?:[eE]\d+)?` group of `REGEX_NUMBER` (it matches only when
at least one digit follows the `e`). -/
def numExp : List Char → List Char × List Char
  | c :: rest =>
    if c = 'e' ∨ c = 'E' then
      if (rest.takeWhile Char.isDigit).isEmpty then ([], c :: rest)
      else (c :: rest.takeWhile Char.isDigit, rest.dropWhile Char.isDigit)
    else ([], c :: rest)
  | [] => ([], [])

/-- Anchored match of `REGEX_NUMBER` = `^[+-]?\d+(?:\.\d*)?(?:[eE]\d+)?` from
src/lexer.rs, with greedy repetition exactly as the regex crate resolves it:
returns the matched text and the remaining text, or `none` when the pattern
does not match at position 0 (the `\d+` needs at least one digit, else the
whole pattern fails, sign included). -/
def matchNumber (cs : List Char) : Option (List Char × List Char) :=
  let sgn := numSign cs
  let ds := sgn.2.takeWhile Char.isDigit
  if ds.isEmpty then none
  else
    let frac := numFrac (sgn.2.dropWhile Char.isDigit)
    let ex := numExp frac.2
    some (sgn.1 ++ ds ++ frac.1 ++ ex.1, ex.2)

/-- Anchored match of `REGEX_IDENT` = `^[a-zA-Z]+` from src/lexer.rs. -/
def matchIdent (cs : List Char) : Option (List Char × List Char) :=
  if (cs.takeWhile Char.isAlpha).isEmpty then none
  else some (cs.takeWhile Char.isAlpha, cs.dropWhile Char.isAlpha)

/-- `Lexer` from src/lexer.rs: remaining text, character position, and the
sticky error message (`error: Option<String>`). -/
structure Lexer where
  text : List Char
  pos : Nat
  error : Option String
deriving DecidableEq

/-- `Lexer::new` from src/lexer.rs. -/
def Lexer.new (text : String) : Lexer :=
  { text := text.data, pos := 0, error := none }

/-- A single quote character, used when rendering Rust `format!` output. -/
def sq : String := String.mk [Char.ofNat 39]

/-- The whitespace-skipping loop at the start of `Lexer::next_token_`:
advances past leading whitespace one character at a time, slicing one BYTE
per skipped character (`self.text = &self.text[1..]`), so a multi-byte
whitespace character makes the slice panic (`none`). -/
def skipWs : List Char → Nat → Option (List Char × Nat)
  | [], pos => some ([], pos)
  | c :: rest, pos =>
    if isRustWhitespace c then
      if charUtf8Size c = 1 then skipWs rest (pos + 1) else none
    else some (c :: rest, pos)

/-- `Lexer::next_token_` from src/lexer.rs.  `none` models a panic; otherwise
the result is the token or lexing error together with the updated lexer
state.  The single-character-operator check comes before the number and
identifier patterns, exactly as in the source. -/
def nextToken_ (l : Lexer) : Option (Except ParseError Token × Lexer) :=
  match skipWs l.text l.pos with
  | none => none
  | some ([], pos) =>
    some (.ok { typ := .End, pos := pos }, { text := [], pos := pos, error := l.error })
  | some (ch :: rest, pos) =>
    if ch ∈ OPS_SINGLE then
      if charUtf8Size ch = 1 then
        some (.ok { typ := .OpSingle ch, pos := pos },
              { text := rest, pos := pos + 1, error := l.error })
      else none
    else
      match matchNumber (ch :: rest) with
      | some (m, r) =>
        some (.ok { typ := .Number (String.mk m), pos := pos },
              { text := r, pos := pos + m.length, error := l.error })
      | none =>
        match matchIdent (ch :: rest) with
        | some (m, r) =>
          some (.ok { typ := .Ident (String.mk m), pos := pos },
                { text := r, pos := pos + m.length, error := l.error })
        | none =>
          some (.error (.Lex ("Unexpected " ++ sq ++ String.mk [ch] ++ sq ++
                              " at position " ++ toString pos)),
                { text := ch :: rest, pos := pos, error := l.error })

/-- `Lexer::next_token` from src/lexer.rs: consults the sticky error first,
and poisons the lexer with a prefixed message when a fresh scan fails. -/
def nextToken (l : Lexer) : Option (Except ParseError Token × Lexer) :=
  match l.error with
  | some msg => some (.error (.Lex msg), l)
  | none =>
    match nextToken_ l with
    | none => none
    | some (.ok t, l') => some (.ok t, l')
    | some (.error e, l') =>
      some (.error e,
            { l' with error := some ("Errored previously: " ++ e.description) })

/-- Iterated calls: `callN k l` is the result of the `k+1`-st consecutive
`next_token` call on `l` (propagating a panic). -/
def callN : Nat → Lexer → Option (Except ParseError Token × Lexer)
  | 0, l => nextToken l
  | k + 1, l =>
    match nextToken l with
    | some (_, l') => callN k l'
    | none => none

/-- The token-type stream of a lexer: the token types produced by repeated
`next_token` calls up to (excluding) the first `End`; `none` if an error, a
panic or fuel exhaustion intervenes. -/
def lexAll : Nat → Lexer → Option (List TokenType)
  | 0, _ => none
  | fuel + 1, l =>
    match nextToken l with
    | some (.ok { typ := .End, pos := _ }, _) => some []
    | some (.ok t, l') => (lexAll fuel l').map (fun ts => t.typ :: ts)
    | _ => none

/-- Token stream of an input string, with fuel that suffices for any
terminating scan. -/
def tokensOf (text : String) : Option (List TokenType) :=
  lexAll (text.length + 1) (Lexer.new text)

/-! ## Operator table (src/shuntingyard.rs) -/

/-- `OpType` from src/shuntingyard.rs. -/
inductive OpType where
  | Sentinel
  | Binary
  | Prefix
  | Postfix
deriving DecidableEq

/-- `Assoc` from src/shuntingyard.rs. -/
inductive Assoc where
  | Left
  | Right
deriving DecidableEq

/-- `Op` from src/shuntingyard.rs: operator character, arity class,
precedence and associativity. -/
structure Op where
  ch : Char
  typ : OpType
  prec : Nat
  assoc : Assoc
deriving DecidableEq

/-- The `SENTINEL` static from src/shuntingyard.rs. -/
def SENTINEL : Op :=
  { ch := Char.ofNat 0, typ := OpType.Sentinel, prec := 0, assoc := Assoc.Left }

/-- The `OPS` static table from src/shuntingyard.rs, in source order. -/
def OPS : List Op :=
  [ { ch := '+', typ := OpType.Binary,  prec := 1, assoc := Assoc.Left  },
    { ch := '-', typ := OpType.Binary,  prec := 1, assoc := Assoc.Left  },
    { ch := '*', typ := OpType.Binary,  prec := 2, assoc := Assoc.Left  },
    { ch := '/', typ := OpType.Binary,  prec := 2, assoc := Assoc.Left  },
    { ch := '-', typ := OpType.Prefix,  prec := 3, assoc := Assoc.Left  },
    { ch := '!', typ := OpType.Postfix, prec := 4, assoc := Assoc.Left  },
    { ch := '^', typ := OpType.Binary,  prec := 5, assoc := Assoc.Right } ]

/-- `get_op` from src/shuntingyard.rs: first table entry matching the
character and arity class. -/
def get_op (op_char : Char) (typ : OpType) : Option Op :=
  OPS.find? fun op => decide (op.ch = op_char ∧ op.typ = typ)

/-- `has_greater_prec` from src/shuntingyard.rs. -/
def has_greater_prec (op1 op2 : Op) : Bool :=
  op1.prec > op2.prec || (op1.prec == op2.prec && op1.assoc == Assoc.Left)

/-- `is_sentinel` from src/shuntingyard.rs, over the optional top of the
operator stack. -/
def is_sentinel : Option (Op × Nat) → Bool
  | some (op, _) => op.typ == OpType.Sentinel
  | none => false

/-! ## AST (src/ast.rs) -/

mutual
/-- `AstType` from src/ast.rs (the `f64` of `Number` is kept as its literal
text, see the header note). -/
inductive AstType where
  | Number (lit : String)
  | Ident (s : String)
  | Func (s : String) (arg : AstNode)
  | Binary (ch : Char) (left right : AstNode)
  | Prefix (ch : Char) (arg : AstNode)
  | Postfix (ch : Char) (arg : AstNode)
  | Parens (arg : AstNode)
/-- `AstNode` from src/ast.rs: an `AstType` with a source position. -/
inductive AstNode where
  | mk (typ : AstType) (pos : Nat)
end

/-! ## Shunting-yard parser (src/shuntingyard.rs) -/

/-- `ShuntingYard` state: the lexer, the one-token lookahead `next`, and the
two stacks.  The heads of the lists are the tops of the Rust `Vec` stacks. -/
structure SY where
  lexer : Lexer
  next : Token
  op_stack : List (Op × Nat)
  exp_stack : List AstNode

/-- Outcome of a parser step: success with a value and the updated state, an
`Err` propagated by `try!`, or a panic. -/
inductive PR (α : Type) where
  | ok (a : α) (st : SY)
  | err (e : ParseError)
  | panic

/-- Sequencing of parser steps, as Rust's `try!`/`?` with `&mut self`. -/
def PR.bind {α β : Type} (x : PR α) (f : α → SY → PR β) : PR β :=
  match x with
  | .ok a st => f a st
  | .err e => .err e
  | .panic => .panic

/-- The expression-stack effect of `ShuntingYard::pop_operator` for a popped
operator: pop one operand (two for a binary operator), push the built node.
`none` models `unwrap()` on an empty stack or the `panic!` on a sentinel. -/
def popNode (op : Op) (pos : Nat) (exps : List AstNode) : Option (List AstNode) :=
  match exps with
  | [] => none
  | t :: rest =>
    match op.typ with
    | .Binary =>
      match rest with
      | [] => none
      | t0 :: rest' => some (AstNode.mk (.Binary op.ch t0 t) pos :: rest')
    | .Prefix => some (AstNode.mk (.Prefix op.ch t) pos :: rest)
    | .Postfix => some (AstNode.mk (.Postfix op.ch t) pos :: rest)
    | .Sentinel => none

/-- `ShuntingYard::pop_operator`. -/
def popOperator (st : SY) : Option SY :=
  match st.op_stack with
  | [] => none
  | (op, pos) :: ops =>
    match popNode op pos st.exp_stack with
    | none => none
    | some e => some { st with op_stack := ops, exp_stack := e }

/-- The `while has_greater_prec(top, op)` loop of
`ShuntingYard::push_operator`, acting on the two stacks; `none` models the
`unwrap()` of `top_operator` on an empty stack or a failing reduction. -/
def pushOpLoop : List (Op × Nat) → List AstNode → Op × Nat →
    Option (List (Op × Nat) × List AstNode)
  | [], _, _ => none
  | (top, tpos) :: rest, exps, oppos =>
    if has_greater_prec top oppos.1 then
      match popNode top tpos exps with
      | none => none
      | some e => pushOpLoop rest e oppos
    else some (oppos :: (top, tpos) :: rest, exps)

/-- `ShuntingYard::push_operator`. -/
def pushOperator (st : SY) (oppos : Op × Nat) : Option SY :=
  match pushOpLoop st.op_stack st.exp_stack oppos with
  | none => none
  | some (o, e) => some { st with op_stack := o, exp_stack := e }

/-- The `while !is_sentinel(op_stack.last())` drain loop at the end of
`ShuntingYard::parse_e`. -/
def drainLoop : List (Op × Nat) → List AstNode →
    Option (List (Op × Nat) × List AstNode)
  | [], _ => none
  | (op, pos) :: rest, exps =>
    if op.typ = OpType.Sentinel then some ((op, pos) :: rest, exps)
    else
      match popNode op pos exps with
      | none => none
      | some e => drainLoop rest e

/-- `ShuntingYard::consume`. -/
def consume (st : SY) : PR Unit :=
  match nextToken st.lexer with
  | none => .panic
  | some (.error e, _) => .err e
  | some (.ok t, l') => .ok () { st with lexer := l', next := t }

/-- Rust `format!` rendering of a `char` under `{:?}`. -/
def charDebug (c : Char) : String := sq ++ String.mk [c] ++ sq

/-- Stand-in for the `{:?}` rendering of the `f64` of a `Number` token,
applied to its literal text.  No verified claim evaluates a message that
prints a `Number` token, so the literal itself is used. -/
def f64Debug (lit : String) : String := lit

/-- Derived `Debug` output of `TokenType` (used in `format!("{:?}")`). -/
def ttDebug : TokenType → String
  | .Number lit => "Number(" ++ f64Debug lit ++ ")"
  | .Ident s => "Ident(\"" ++ s ++ "\")"
  | .OpSingle c => "OpSingle(" ++ charDebug c ++ ")"
  | .End => "End"

/-- Derived `Debug` output of `Token`. -/
def tokenDebug (t : Token) : String :=
  "Token \x7b typ: " ++ ttDebug t.typ ++ ", pos: " ++ toString t.pos ++ " \x7d"

/-- `ShuntingYard::expect`: Rust's `self.next == token_type` compares the
token types only (the `PartialEq<TokenType> for Token` impl). -/
def expect (st : SY) (tt : TokenType) : PR Unit :=
  if st.next.typ = tt then consume st
  else
    .err (.Parse ("Expected " ++ ttDebug tt ++ " of expression, but got " ++
                  ttDebug st.next.typ ++ " at position " ++ toString st.next.pos))

/-- `ShuntingYard::match_starting_parens`. -/
def matchStartingParens (st : SY) : Bool :=
  st.next.typ == TokenType.OpSingle '('

mutual
/-- `ShuntingYard::parse_p`, with fuel (the source's recursion always
consumes input; fuel exhaustion is reported as `.panic` and never occurs on
the runs the claims evaluate). -/
def parseP : Nat → SY → PR Unit
  | 0, _ => .panic
  | fuel + 1, st =>
    match st.next with
    | { typ := .Number lit, pos := pos } =>
      consume { st with exp_stack := AstNode.mk (.Number lit) pos :: st.exp_stack }
    | { typ := .Ident s, pos := pos } =>
      PR.bind (consume st) fun _ st₁ =>
        if matchStartingParens st₁ then
          PR.bind (parseParens fuel st₁ pos) fun t st₂ =>
            .ok () { st₂ with exp_stack := AstNode.mk (.Func s t) pos :: st₂.exp_stack }
        else
          .ok () { st₁ with exp_stack := AstNode.mk (.Ident s) pos :: st₁.exp_stack }
    | { typ := .OpSingle ch, pos := pos } =>
      if ch = '(' then
        PR.bind (parseParens fuel st pos) fun t st₁ =>
          .ok () { st₁ with exp_stack := AstNode.mk (.Parens t) pos :: st₁.exp_stack }
      else
        match get_op ch OpType.Prefix with
        | some op =>
          match pushOperator st (op, pos) with
          | none => .panic
          | some st₁ => PR.bind (consume st₁) fun _ st₂ => parseP fuel st₂
        | none => .err (.Parse ("Expected unary operator, but got " ++ charDebug ch))
    | { typ := .End, pos := _ } =>
      .err (.Parse ("Unexpected token " ++ tokenDebug st.next))

/-- The `while let` loop of `ShuntingYard::parse_e`. -/
def parseELoop : Nat → SY → PR Unit
  | 0, _ => .panic
  | fuel + 1, st =>
    match st.next with
    | { typ := .OpSingle ch, pos := pos } =>
      match get_op ch OpType.Binary with
      | some op =>
        match pushOperator st (op, pos) with
        | none => .panic
        | some st₁ =>
          PR.bind (consume st₁) fun _ st₂ =>
          PR.bind (parseP fuel st₂) fun _ st₃ =>
          parseELoop fuel st₃
      | none =>
        match get_op ch OpType.Postfix with
        | some op =>
          match pushOperator st (op, pos) with
          | none => .panic
          | some st₁ =>
            match popOperator st₁ with
            | none => .panic
            | some st₂ => PR.bind (consume st₂) fun _ st₃ => parseELoop fuel st₃
        | none => .ok () st
    | _ => .ok () st

/-- `ShuntingYard::parse_e`. -/
def parseE : Nat → SY → PR Unit
  | 0, _ => .panic
  | fuel + 1, st =>
    PR.bind (parseP fuel st) fun _ st₁ =>
    PR.bind (parseELoop fuel st₁) fun _ st₂ =>
    match drainLoop st₂.op_stack st₂.exp_stack with
    | none => .panic
    | some (o, e) => .ok () { st₂ with op_stack := o, exp_stack := e }

/-- `ShuntingYard::parse_parens`: the initial `assert!` is a `.panic` when
the lookahead is not `(`. -/
def parseParens : Nat → SY → Nat → PR AstNode
  | 0, _, _ => .panic
  | fuel + 1, st, pos =>
    if st.next.typ = TokenType.OpSingle '(' then
      PR.bind (consume st) fun _ st₁ =>
      PR.bind (parseE fuel { st₁ with op_stack := (SENTINEL, pos) :: st₁.op_stack })
        fun _ st₃ =>
      PR.bind (expect st₃ (.OpSingle ')')) fun _ st₄ =>
      match st₄.op_stack with
      | [] => .panic
      | _ :: ops =>
        match st₄.exp_stack with
        | [] => .panic
        | t :: exps => .ok t { st₄ with op_stack := ops, exp_stack := exps }
    else .panic
end

/-- Final outcome of a whole parse. -/
inductive ParseResult where
  | ok (ast : AstNode)
  | error (e : ParseError)
  | panic

/-- The tail of `ShuntingYard::parse` after `parse_e` has succeeded:
`expect(End)`, then the two `assert_eq!` checks before popping the result. -/
def syFinish (st₁ : SY) : ParseResult :=
  match expect st₁ TokenType.End with
  | .panic => .panic
  | .err e => .error e
  | .ok _ st₂ =>
    if st₂.exp_stack.length = 1 then
      if st₂.op_stack.length = 1 then
        match st₂.exp_stack with
        | t :: _ => ParseResult.ok t
        | [] => .panic
      else .panic
    else .panic

/-- `ShuntingYard::parse`: `parse_e`, then `syFinish`. -/
def syParse (fuel : Nat) (st : SY) : ParseResult :=
  match parseE fuel st with
  | .panic => .panic
  | .err e => .error e
  | .ok _ st₁ => syFinish st₁

/-- The top-level `parse` function from src/shuntingyard.rs. -/
def parse (text : String) : ParseResult :=
  let l := Lexer.new text
  match nextToken l with
  | none => .panic
  | some (.error e, _) => .error e
  | some (.ok t, l') =>
    syParse (4 * (text.length + 2))
      { lexer := l', next := t, op_stack := [(SENTINEL, 0)], exp_stack := [] }

/-! ## Lexer lemmas -/

theorem skipWs_ws (cs : List Char) : ∀ pos : Nat,
    (∀ c ∈ cs, isRustWhitespace c = true ∧ charUtf8Size c = 1) →
    skipWs cs pos = some ([], pos + cs.length) := by
  induction cs with
  | nil => intro pos _; simp [skipWs]
  | cons c rest ih =>
    intro pos h
    have hc := h c (by simp)
    have hr : skipWs rest (pos + 1) = some ([], pos + 1 + rest.length) :=
      ih (pos + 1) (fun x hx => h x (by simp [hx]))
    have harith : pos + 1 + rest.length = pos + (rest.length + 1) := by
      rw [Nat.add_assoc, Nat.add_comm 1]
    simp only [skipWs, hc.1, hc.2, if_true, hr, List.length_cons, harith]

theorem skipWs_ascii (cs : List Char) : ∀ pos : Nat,
    (∀ c ∈ cs, c.toNat < 0x80) →
    ∃ cs' pos', skipWs cs pos = some (cs', pos') ∧ ∀ c ∈ cs', c ∈ cs := by
  induction cs with
  | nil => intro pos _; exact ⟨[], pos, rfl, by simp⟩
  | cons c rest ih =>
    intro pos h
    by_cases hws : isRustWhitespace c = true
    · have hsz : charUtf8Size c = 1 := by
        unfold charUtf8Size
        rw [if_pos (h c (by simp))]
      obtain ⟨cs', pos', heq, hsub⟩ := ih (pos + 1) (fun x hx => h x (by simp [hx]))
      refine ⟨cs', pos', ?_, fun x hx => by simp [hsub x hx]⟩
      simp [skipWs, hws, hsz, heq]
    · exact ⟨c :: rest, pos, by simp [skipWs, hws], fun x hx => hx⟩

theorem dropWhile_mem {p : Char → Bool} {cs : List Char} :
    ∀ c ∈ cs.dropWhile p, c ∈ cs := by
  induction cs with
  | nil => simp
  | cons a rest ih =>
    intro c hc
    by_cases ha : p a = true
    · simp only [List.dropWhile_cons, ha, if_true] at hc
      exact List.mem_cons_of_mem a (ih c hc)
    · simp only [List.dropWhile_cons, ha] at hc
      simpa using hc

theorem numSign_sub (cs : List Char) : ∀ c ∈ (numSign cs).2, c ∈ cs := by
  rw [numSign.eq_def]
  split
  · split
    · intro c hc
      simp only at hc
      exact List.mem_cons_of_mem _ hc
    · intro c hc
      simpa using hc
  · simp

theorem numFrac_sub (cs : List Char) : ∀ c ∈ (numFrac cs).2, c ∈ cs := by
  rw [numFrac.eq_def]
  split
  · intro c hc
    simp only at hc
    exact List.mem_cons_of_mem _ (dropWhile_mem c hc)
  · intro c hc
    simpa using hc

theorem numExp_sub (cs : List Char) : ∀ c ∈ (numExp cs).2, c ∈ cs := by
  rw [numExp.eq_def]
  split
  · split
    · split
      · intro c hc
        simpa using hc
      · intro c hc
        simp only at hc
        exact List.mem_cons_of_mem _ (dropWhile_mem c hc)
    · intro c hc
      simpa using hc
  · simp

theorem matchNumber_sub {cs m r : List Char} (h : matchNumber cs = some (m, r)) :
    ∀ c ∈ r, c ∈ cs := by
  unfold matchNumber at h
  simp only at h
  split at h
  · exact absurd h (by simp)
  · simp only [Option.some.injEq, Prod.mk.injEq] at h
    obtain ⟨-, hr⟩ := h
    subst hr
    intro c hc
    have h1 := numExp_sub _ c hc
    have h2 := numFrac_sub _ c h1
    have h3 := dropWhile_mem c h2
    exact numSign_sub cs c h3

theorem matchIdent_sub {cs m r : List Char} (h : matchIdent cs = some (m, r)) :
    ∀ c ∈ r, c ∈ cs := by
  unfold matchIdent at h
  split at h
  · exact absurd h (by simp)
  · simp only [Option.some.injEq, Prod.mk.injEq] at h
    obtain ⟨-, hr⟩ := h
    subst hr
    exact fun c hc => dropWhile_mem c hc

theorem matchNumber_head {ch : Char} {rest m r : List Char}
    (hch : ¬(ch = '+' ∨ ch = '-'))
    (h : matchNumber (ch :: rest) = some (m, r)) :
    ∃ ds, m = ch :: ds ∧ ch.isDigit = true := by
  have hsgn : numSign (ch :: rest) = ([], ch :: rest) := by
    simp [numSign, hch]
  simp only [matchNumber, hsgn] at h
  by_cases hdig : ch.isDigit = true
  · rw [List.takeWhile_cons, if_pos hdig] at h
    simp only [List.isEmpty_cons, Bool.false_eq_true, if_false, List.nil_append,
      Option.some.injEq, Prod.mk.injEq] at h
    obtain ⟨hm, -⟩ := h
    exact ⟨_, hm.symm, hdig⟩
  · rw [List.takeWhile_cons, if_neg hdig] at h
    simp at h

/-! ## Claims about the lexer -/

/-- Claim C3: whenever the current (post-whitespace) character is `-`,
`next_token` returns a `SingleCharOperator('-')` token consuming exactly that
character; and since the single-character check precedes the number pattern,
every `Number` token's text starts with a digit, never with a sign. -/
theorem c3_minus_is_operator :
    (∀ (l : Lexer) (rest : List Char) (p : Nat),
       l.error = none →
       skipWs l.text l.pos = some ('-' :: rest, p) →
       nextToken l = some (.ok { typ := .OpSingle '-', pos := p },
                           { text := rest, pos := p + 1, error := none })) ∧
    (∀ (l : Lexer) (t : Token) (l' : Lexer) (lit : String),
       nextToken l = some (.ok t, l') → t.typ = .Number lit →
       ∃ d ds, lit.data = d :: ds ∧ d.isDigit = true) := by
  constructor
  · intro l rest p herr hskip
    have hmem : '-' ∈ OPS_SINGLE := by decide
    have hsz : charUtf8Size '-' = 1 := by decide
    simp [nextToken, herr, nextToken_, hskip, hmem, hsz]
  · intro l t l' lit h htyp
    cases herr : l.error with
    | some msg => simp [nextToken, herr] at h
    | none =>
      simp only [nextToken, herr] at h
      cases hskip : skipWs l.text l.pos with
      | none => simp [nextToken_, hskip] at h
      | some cp =>
        obtain ⟨cs', p⟩ := cp
        cases cs' with
        | nil =>
          simp only [nextToken_, hskip, Option.some.injEq, Prod.mk.injEq,
            Except.ok.injEq] at h
          obtain ⟨ht, -⟩ := h
          rw [← ht] at htyp
          simp at htyp
        | cons ch rest =>
          by_cases hop : ch ∈ OPS_SINGLE
          · have hsz : charUtf8Size ch = 1 := by
              have : ∀ c ∈ OPS_SINGLE, charUtf8Size c = 1 := by decide
              exact this ch hop
            simp only [nextToken_, hskip, hop, if_true, hsz, Option.some.injEq,
              Prod.mk.injEq, Except.ok.injEq] at h
            obtain ⟨ht, -⟩ := h
            rw [← ht] at htyp
            simp at htyp
          · cases hmn : matchNumber (ch :: rest) with
            | some mr =>
              obtain ⟨m, r⟩ := mr
              simp only [nextToken_, hskip, hop, if_false, hmn, Option.some.injEq,
                Prod.mk.injEq, Except.ok.injEq] at h
              obtain ⟨ht, -⟩ := h
              rw [← ht] at htyp
              simp only [Token.mk.injEq, TokenType.Number.injEq] at htyp
              have hch : ¬(ch = '+' ∨ ch = '-') := by
                intro hc
                rcases hc with hc | hc <;> subst hc <;> exact hop (by decide)
              obtain ⟨ds, hm, hdig⟩ := matchNumber_head hch hmn
              refine ⟨ch, ds, ?_, hdig⟩
              subst htyp
              rw [hm]
            | none =>
              cases hmi : matchIdent (ch :: rest) with
              | some mr =>
                obtain ⟨m, r⟩ := mr
                simp only [nextToken_, hskip, hop, if_false, hmn, hmi,
                  Option.some.injEq, Prod.mk.injEq, Except.ok.injEq] at h
                obtain ⟨ht, -⟩ := h
                rw [← ht] at htyp
                simp at htyp
              | none =>
                simp [nextToken_, hskip, hop, hmn, hmi] at h

/-- Witness for C3 at the inputs `"-"` and `"42"`. -/
theorem c3_minus_is_operator_witness :
    nextToken (Lexer.new "-") =
      some (.ok { typ := .OpSingle '-', pos := 0 },
            { text := [], pos := 1, error := none }) ∧
    ∃ d ds, ("42" : String).data = d :: ds ∧ d.isDigit = true :=
  ⟨c3_minus_is_operator.1 (Lexer.new "-") [] 0 rfl rfl,
   c3_minus_is_operator.2 (Lexer.new "42") { typ := .Number "42", pos := 0 }
     { text := [], pos := 2, error := none } "42" rfl rfl⟩

theorem nextToken_poisoned (l : Lexer) (msg : String) (h : l.error = some msg) :
    nextToken l = some (.error (.Lex msg), l) := by
  simp [nextToken, h]

theorem callN_poisoned (k : Nat) (l : Lexer) (msg : String)
    (h : l.error = some msg) :
    callN k l = some (.error (.Lex msg), l) := by
  induction k with
  | zero => exact nextToken_poisoned l msg h
  | succ n ih => simp [callN, nextToken_poisoned l msg h, ih]

/-- Claim C4: once a `next_token` call on a non-poisoned lexer fails, the
lexer is poisoned with the original message behind the repeat prefix, and
every subsequent call (the `k+1`-st, for every `k`) returns a `Lex` error
with that prefixed message while leaving the state untouched — no further
scanning takes place. -/
theorem c4_sticky_error (l : Lexer) (e : ParseError) (l' : Lexer)
    (herr : l.error = none) (h : nextToken l = some (.error e, l')) :
    l'.error = some ("Errored previously: " ++ e.description) ∧
    ∀ k, callN k l' =
      some (.error (.Lex ("Errored previously: " ++ e.description)), l') := by
  have key : l'.error = some ("Errored previously: " ++ e.description) := by
    simp only [nextToken, herr] at h
    cases hnt : nextToken_ l with
    | none => rw [hnt] at h; cases h
    | some rl =>
      obtain ⟨res, l₀⟩ := rl
      cases res with
      | ok t => rw [hnt] at h; simp at h
      | error e₀ =>
        rw [hnt] at h
        simp only [Option.some.injEq, Prod.mk.injEq] at h
        obtain ⟨he, hl⟩ := h
        obtain rfl : e₀ = e := by
          rwa [Except.error.injEq] at he
        rw [← hl]
  exact ⟨key, fun k => callN_poisoned k l' _ key⟩

/-- A poisoned lexer state used by the C4 witness: the state of
`Lexer::new("&")` after its first (failing) `next_token` call. -/
def poisonedAmp : Lexer :=
  { text := ['&'], pos := 0,
    error := some ("Errored previously: " ++ "Unexpected " ++ sq ++ "&" ++ sq ++
                   " at position 0") }

/-- Witness for C4 at the input `"&"`. -/
theorem c4_sticky_error_witness :
    (Lexer.new "&").error = none ∧
    nextToken (Lexer.new "&") =
      some (.error (.Lex ("Unexpected " ++ sq ++ "&" ++ sq ++ " at position 0")),
            poisonedAmp) ∧
    (poisonedAmp.error =
       some ("Errored previously: " ++
             (ParseError.Lex ("Unexpected " ++ sq ++ "&" ++ sq ++
                              " at position 0")).description) ∧
     ∀ k, callN k poisonedAmp =
       some (.error (.Lex ("Errored previously: " ++
               (ParseError.Lex ("Unexpected " ++ sq ++ "&" ++ sq ++
                                " at position 0")).description)),
             poisonedAmp)) :=
  ⟨rfl, rfl,
   c4_sticky_error (Lexer.new "&")
     (.Lex ("Unexpected " ++ sq ++ "&" ++ sq ++ " at position 0"))
     poisonedAmp rfl rfl⟩

/-- Counterexample to claim C8 as stated: the remaining text of this lexer
consists only of whitespace (U+00A0, NO-BREAK SPACE, for which Rust's
`char::is_whitespace` is true), yet `next_token` panics (the one-byte slice
`&self.text[1..]` falls inside the two-byte UTF-8 encoding) instead of
returning `Ok(EndOfInput)`. -/
theorem c8_counterexample :
    isRustWhitespace (Char.ofNat 0xA0) = true ∧
    nextToken { text := [Char.ofNat 0xA0], pos := 0, error := none } = none :=
  ⟨rfl, rfl⟩

/-- Claim C8 (amended): for every non-poisoned lexer whose remaining text is
empty or consists only of single-byte (ASCII) whitespace, `next_token`
returns `Ok(EndOfInput)` at the position just past that whitespace, and every
further call returns the same `Ok(EndOfInput)` at the same position. -/
theorem c8_end_of_input (l : Lexer) (herr : l.error = none)
    (hws : ∀ c ∈ l.text, isRustWhitespace c = true ∧ charUtf8Size c = 1) :
    nextToken l =
      some (.ok { typ := .End, pos := l.pos + l.text.length },
            { text := [], pos := l.pos + l.text.length, error := none }) ∧
    nextToken { text := [], pos := l.pos + l.text.length, error := none } =
      some (.ok { typ := .End, pos := l.pos + l.text.length },
            { text := [], pos := l.pos + l.text.length, error := none }) := by
  constructor
  · simp [nextToken, herr, nextToken_, skipWs_ws l.text l.pos hws]
  · simp [nextToken, nextToken_, skipWs]

/-- Witness for C8 (amended) at the lexer state `⟨" ", 3, none⟩`. -/
theorem c8_end_of_input_witness :
    nextToken { text := [' '], pos := 3, error := none } =
      some (.ok { typ := .End, pos := 3 + 1 },
            { text := [], pos := 3 + 1, error := none }) ∧
    nextToken { text := [], pos := 3 + 1, error := none } =
      some (.ok { typ := .End, pos := 3 + 1 },
            { text := [], pos := 3 + 1, error := none }) :=
  c8_end_of_input { text := [' '], pos := 3, error := none } rfl (by decide)

/-- Claim C9: on all-ASCII remaining text every `next_token` call is total —
it returns `some` result (token or error), never the `none` that models a
byte-boundary panic — and the remaining text stays all-ASCII, so every later
call is total as well. -/
theorem c9_ascii_total (l : Lexer) (h : ∀ c ∈ l.text, c.toNat < 0x80) :
    ∃ res l', nextToken l = some (res, l') ∧ ∀ c ∈ l'.text, c.toNat < 0x80 := by
  cases herr : l.error with
  | some msg => exact ⟨.error (.Lex msg), l, by simp [nextToken, herr], h⟩
  | none =>
    obtain ⟨cs', pos', hskip, hsub⟩ := skipWs_ascii l.text l.pos h
    have hsub' : ∀ c ∈ cs', c.toNat < 0x80 := fun c hc => h c (hsub c hc)
    cases cs' with
    | nil =>
      refine ⟨.ok { typ := .End, pos := pos' },
              { text := [], pos := pos', error := none }, ?_, by simp⟩
      simp [nextToken, herr, nextToken_, hskip]
    | cons ch rest =>
      by_cases hop : ch ∈ OPS_SINGLE
      · have hsz : charUtf8Size ch = 1 := by
          unfold charUtf8Size
          rw [if_pos (hsub' ch (by simp))]
        refine ⟨.ok { typ := .OpSingle ch, pos := pos' },
                { text := rest, pos := pos' + 1, error := none }, ?_, ?_⟩
        · simp [nextToken, herr, nextToken_, hskip, hop, hsz]
        · exact fun c hc => hsub' c (by simp [hc])
      · cases hmn : matchNumber (ch :: rest) with
        | some mr =>
          obtain ⟨m, r⟩ := mr
          refine ⟨.ok { typ := .Number (String.mk m), pos := pos' },
                  { text := r, pos := pos' + m.length, error := none }, ?_, ?_⟩
          · simp [nextToken, herr, nextToken_, hskip, hop, hmn]
          · exact fun c hc => hsub' c (matchNumber_sub hmn c hc)
        | none =>
          cases hmi : matchIdent (ch :: rest) with
          | some mr =>
            obtain ⟨m, r⟩ := mr
            refine ⟨.ok { typ := .Ident (String.mk m), pos := pos' },
                    { text := r, pos := pos' + m.length, error := none }, ?_, ?_⟩
            · simp [nextToken, herr, nextToken_, hskip, hop, hmn, hmi]
            · exact fun c hc => hsub' c (matchIdent_sub hmi c hc)
          | none =>
            refine ⟨.error (.Lex ("Unexpected " ++ sq ++ String.mk [ch] ++ sq ++
                                  " at position " ++ toString pos')),
                    { text := ch :: rest, pos := pos',
                      error := some ("Errored previously: " ++
                                     ("Unexpected " ++ sq ++ String.mk [ch] ++ sq ++
                                      " at position " ++ toString pos')) }, ?_, hsub'⟩
            simp [nextToken, herr, nextToken_, hskip, hop, hmn, hmi,
                  ParseError.description]

/-- Witness for C9 at the input `"a"`. -/
theorem c9_ascii_total_witness :
    ∃ res l', nextToken (Lexer.new "a") = some (res, l') ∧
      ∀ c ∈ l'.text, c.toNat < 0x80 :=
  c9_ascii_total (Lexer.new "a") (by decide)

/-! ## Stack bookkeeping lemmas for the parser -/

/-- Number of `Binary` operators on an operator stack. -/
def countB (σ : List (Op × Nat)) : Nat :=
  (σ.filter fun x => decide (x.1.typ = OpType.Binary)).length

theorem countB_cons (x : Op × Nat) (σ : List (Op × Nat)) :
    countB (x :: σ) =
      (if x.1.typ = OpType.Binary then 1 else 0) + countB σ := by
  unfold countB
  by_cases hb : x.1.typ = OpType.Binary <;> simp [List.filter_cons, hb, Nat.add_comm]

theorem countB_append (σ τ : List (Op × Nat)) :
    countB (σ ++ τ) = countB σ + countB τ := by
  unfold countB
  simp [List.filter_append]

theorem popNode_spec {op : Op} {pos : Nat} {exps e : List AstNode}
    (h : popNode op pos exps = some e) :
    op.typ ≠ OpType.Sentinel ∧
    e.length + (if op.typ = OpType.Binary then 1 else 0) = exps.length := by
  unfold popNode at h
  cases exps with
  | nil => cases h
  | cons t rest =>
    simp only at h
    cases hop : op.typ with
    | Binary =>
      rw [hop] at h
      cases rest with
      | nil => cases h
      | cons t0 rest' =>
        simp only [Option.some.injEq] at h
        subst h
        simp [hop]
    | Prefix =>
      rw [hop] at h
      simp only [Option.some.injEq] at h
      subst h
      simp [hop]
    | Postfix =>
      rw [hop] at h
      simp only [Option.some.injEq] at h
      subst h
      simp [hop]
    | Sentinel =>
      rw [hop] at h
      cases h

theorem pushOpLoop_spec :
    ∀ (σ : List (Op × Nat)) (exps : List AstNode) (op : Op) (pos : Nat)
      (σ' : List (Op × Nat)) (exps' : List AstNode),
      pushOpLoop σ exps (op, pos) = some (σ', exps') →
      ∃ popped hd τ,
        σ = popped ++ hd :: τ ∧
        σ' = (op, pos) :: hd :: τ ∧
        (∀ x ∈ popped, has_greater_prec x.1 op = true) ∧
        has_greater_prec hd.1 op = false ∧
        exps'.length + countB popped = exps.length := by
  intro σ
  induction σ with
  | nil => intro exps op pos σ' exps' h; cases h
  | cons top rest ih =>
    intro exps op pos σ' exps' h
    obtain ⟨topOp, topPos⟩ := top
    cases hgt : has_greater_prec topOp op with
    | true =>
      simp only [pushOpLoop, hgt, if_true] at h
      cases hpn : popNode topOp topPos exps with
      | none => rw [hpn] at h; cases h
      | some e =>
        rw [hpn] at h
        obtain ⟨popped, hd, τ, h1, h2, h3, h4, h5⟩ := ih e op pos σ' exps' h
        refine ⟨(topOp, topPos) :: popped, hd, τ, by rw [h1]; rfl, h2, ?_, h4, ?_⟩
        · intro x hx
          rcases List.mem_cons.mp hx with rfl | hx
          · exact hgt
          · exact h3 x hx
        · have hpop := (popNode_spec hpn).2
          have hcb : countB ((topOp, topPos) :: popped) =
              (if topOp.typ = OpType.Binary then 1 else 0) + countB popped :=
            countB_cons (topOp, topPos) popped
          omega
    | false =>
      simp only [pushOpLoop, hgt, Bool.false_eq_true, if_false,
        Option.some.injEq, Prod.mk.injEq] at h
      obtain ⟨h1, h2⟩ := h
      exact ⟨[], (topOp, topPos), rest, rfl, h1.symm, by simp, hgt,
             by simp [countB, h2]⟩

theorem has_greater_prec_iff (o i : Op) :
    has_greater_prec o i = true ↔
      (o.prec > i.prec ∨ (o.prec = i.prec ∧ o.assoc = Assoc.Left)) := by
  simp [has_greater_prec]

/-! ## Claims C1, C2, C6 -/

/-- Claim C1: `parse("3+4*5")` builds `BinaryOp('+', Number(3),
BinaryOp('*', Number(4), Number(5)))` — the higher-precedence `*` groups
`4*5` as the right operand of `+`. -/
theorem c1_star_binds_tighter :
    parse "3+4*5" =
      ParseResult.ok (AstNode.mk
        (.Binary '+' (AstNode.mk (.Number "3") 0)
          (AstNode.mk (.Binary '*' (AstNode.mk (.Number "4") 2)
            (AstNode.mk (.Number "5") 4)) 3)) 1) := by
  rfl

/-- Claim C2: the `push_operator` loop pops (and reduces, shrinking the
expression stack by one per popped binary operator) exactly the operators
with strictly greater precedence than the incoming one, or equal precedence
and left associativity — the stack element it stops at fails that condition
— and then pushes the incoming operator; consequently `parse("2^3^4")`
nests the right-associative `^` to the right. -/
theorem c2_push_operator_precedence :
    (∀ (σ : List (Op × Nat)) (exps : List AstNode) (op : Op) (pos : Nat)
       (σ' : List (Op × Nat)) (exps' : List AstNode),
       pushOpLoop σ exps (op, pos) = some (σ', exps') →
       ∃ popped hd τ,
         σ = popped ++ hd :: τ ∧
         σ' = (op, pos) :: hd :: τ ∧
         (∀ x ∈ popped,
            x.1.prec > op.prec ∨ (x.1.prec = op.prec ∧ x.1.assoc = Assoc.Left)) ∧
         ¬(hd.1.prec > op.prec ∨ (hd.1.prec = op.prec ∧ hd.1.assoc = Assoc.Left)) ∧
         exps'.length + countB popped = exps.length) ∧
    parse "2^3^4" =
      ParseResult.ok (AstNode.mk
        (.Binary '^' (AstNode.mk (.Number "2") 0)
          (AstNode.mk (.Binary '^' (AstNode.mk (.Number "3") 2)
            (AstNode.mk (.Number "4") 4)) 3)) 1) := by
  constructor
  · intro σ exps op pos σ' exps' h
    obtain ⟨popped, hd, τ, h1, h2, h3, h4, h5⟩ :=
      pushOpLoop_spec σ exps op pos σ' exps' h
    refine ⟨popped, hd, τ, h1, h2, ?_, ?_, h5⟩
    · exact fun x hx => (has_greater_prec_iff x.1 op).mp (h3 x hx)
    · intro hc
      rw [← has_greater_prec_iff hd.1 op] at hc
      rw [h4] at hc
      cases hc
  · rfl

/-- Witness for the quantified part of C2: pushing the postfix `!` onto a
stack whose top is the higher-precedence `^` pops (and reduces) the `^` and
stops at the sentinel. -/
theorem c2_push_operator_precedence_witness :
    ∃ popped hd τ,
      [({ ch := '^', typ := OpType.Binary, prec := 5, assoc := Assoc.Right }, 1),
       (SENTINEL, 0)] = popped ++ hd :: τ ∧
      [({ ch := '!', typ := OpType.Postfix, prec := 4, assoc := Assoc.Left }, 3),
       (SENTINEL, 0)] = ({ ch := '!', typ := OpType.Postfix, prec := 4,
                           assoc := Assoc.Left }, 3) :: hd :: τ ∧
      (∀ x ∈ popped, x.1.prec > 4 ∨ (x.1.prec = 4 ∧ x.1.assoc = Assoc.Left)) ∧
      ¬(hd.1.prec > 4 ∨ (hd.1.prec = 4 ∧ hd.1.assoc = Assoc.Left)) ∧
      ([AstNode.mk (.Binary '^' (AstNode.mk (.Number "2") 0)
          (AstNode.mk (.Number "3") 2)) 1]).length + countB popped =
        ([AstNode.mk (.Number "3") 2, AstNode.mk (.Number "2") 0]).length :=
  c2_push_operator_precedence.1
    [({ ch := '^', typ := OpType.Binary, prec := 5, assoc := Assoc.Right }, 1),
     (SENTINEL, 0)]
    [AstNode.mk (.Number "3") 2, AstNode.mk (.Number "2") 0]
    { ch := '!', typ := OpType.Postfix, prec := 4, assoc := Assoc.Left } 3
    [({ ch := '!', typ := OpType.Postfix, prec := 4, assoc := Assoc.Left }, 3),
     (SENTINEL, 0)]
    [AstNode.mk (.Binary '^' (AstNode.mk (.Number "2") 0)
       (AstNode.mk (.Number "3") 2)) 1]
    rfl

/-- Counterexample to claim C6 as stated: `parse("(3+")` does fail with a
`Parse` error, but the message is the generic "Unexpected token …" produced
by `parse_p` on the `End` token — it does not name the missing `)` (the
message contains no `)` character at all). -/
theorem c6_counterexample :
    parse "(3+" =
      ParseResult.error (.Parse ("Unexpected token " ++
        tokenDebug { typ := .End, pos := 3 })) ∧
    ')' ∉ ("Unexpected token " ++
        tokenDebug { typ := .End, pos := 3 }).data := by
  constructor
  · rfl
  · decide

/-- Claim C6 (amended): `parse("(3+")` fails with a `Parse` error — it does
not panic — but the error message reports the unexpected end-of-input token
(`parse_p`'s "Unexpected token …End…"), not the missing `)`; the
"expected `)`" message of `parse_parens` is not the one produced here. -/
theorem c6_missing_paren :
    parse "(3+" =
      ParseResult.error (.Parse ("Unexpected token " ++
        tokenDebug { typ := .End, pos := 3 })) := by
  rfl

/-! ## Claim C5: the spec grammar and the prefix-pop underflow -/

mutual
/-- Modelled from the spec: derivations of the primary production
`P → "(" E ")" | PrefixOp P | Ident "(" E ")" | Ident | Number` of the §4.3
grammar (the same grammar appears in the doc comment of src/shuntingyard.rs),
over lexer token types. -/
inductive DerivP : List TokenType → Prop where
  | number (lit : String) : DerivP [TokenType.Number lit]
  | ident (s : String) : DerivP [TokenType.Ident s]
  | identCall (s : String) (ts : List TokenType) :
      DerivE ts →
      DerivP (TokenType.Ident s :: TokenType.OpSingle '(' ::
              (ts ++ [TokenType.OpSingle ')']))
  | parens (ts : List TokenType) :
      DerivE ts →
      DerivP (TokenType.OpSingle '(' :: (ts ++ [TokenType.OpSingle ')']))
  | prefixOp (c : Char) (op : Op) (ts : List TokenType) :
      get_op c OpType.Prefix = some op →
      DerivP ts →
      DerivP (TokenType.OpSingle c :: ts)
/-- Modelled from the spec: derivations of the expression production
`E → P { BinOp P | PostfixOp }` of the §4.3 grammar. -/
inductive DerivE : List TokenType → Prop where
  | prim (ts : List TokenType) : DerivP ts → DerivE ts
  | bin (c : Char) (op : Op) (ts₁ ts₂ : List TokenType) :
      DerivE ts₁ → get_op c OpType.Binary = some op → DerivP ts₂ →
      DerivE (ts₁ ++ TokenType.OpSingle c :: ts₂)
  | post (c : Char) (op : Op) (ts : List TokenType) :
      DerivE ts → get_op c OpType.Postfix = some op →
      DerivE (ts ++ [TokenType.OpSingle c])
end

/-- Claim C5 is violated by the code: the input `"2^-3"` lexes cleanly and
is derivable from the grammar (`2 ^ (-3)` via the `PrefixOp P` production),
yet `parse` panics — pushing the prefix `-` (precedence 3) pops the
higher-precedence `^`, whose binary reduction pops two operands from an
expression stack holding only one (`unwrap()` on `None` in `pop_operator`) —
instead of succeeding without error. -/
theorem c5_valid_input_panics :
    tokensOf "2^-3" =
      some [TokenType.Number "2", TokenType.OpSingle '^',
            TokenType.OpSingle '-', TokenType.Number "3"] ∧
    DerivE [TokenType.Number "2", TokenType.OpSingle '^',
            TokenType.OpSingle '-', TokenType.Number "3"] ∧
    parse "2^-3" = ParseResult.panic := by
  refine ⟨rfl, ?_, rfl⟩
  have h1 : DerivE [TokenType.Number "2"] := .prim _ (.number "2")
  have h2 : DerivP [TokenType.OpSingle '-', TokenType.Number "3"] :=
    .prefixOp '-' _ [TokenType.Number "3"] rfl (.number "3")
  exact DerivE.bin '^' _ [TokenType.Number "2"]
    [TokenType.OpSingle '-', TokenType.Number "3"] h1 rfl h2

/-! ## Claim C7: the stack-discipline invariant -/

/-- No sentinel among the given operator-stack entries. -/
def noSent (σ : List (Op × Nat)) : Prop :=
  ∀ x ∈ σ, x.1.typ ≠ OpType.Sentinel

/-- The stack segment starts with a sentinel. -/
def headSent : List (Op × Nat) → Prop
  | [] => False
  | (op, _) :: _ => op.typ = OpType.Sentinel

theorem PR.bind_eq_ok {α β : Type} {x : PR α} {f : α → SY → PR β} {b : β}
    {st' : SY} (h : PR.bind x f = .ok b st') :
    ∃ a st₁, x = .ok a st₁ ∧ f a st₁ = .ok b st' := by
  cases x with
  | ok a st => exact ⟨a, st, rfl, h⟩
  | err e => simp [PR.bind] at h
  | panic => simp [PR.bind] at h

theorem consume_ok {st : SY} {u : Unit} {st' : SY} (h : consume st = .ok u st') :
    st'.op_stack = st.op_stack ∧ st'.exp_stack = st.exp_stack ∧
    nextToken st.lexer = some (.ok st'.next, st'.lexer) := by
  unfold consume at h
  cases hnt : nextToken st.lexer with
  | none => rw [hnt] at h; cases h
  | some rl =>
    obtain ⟨res, l'⟩ := rl
    cases res with
    | error e => rw [hnt] at h; cases h
    | ok t =>
      rw [hnt] at h
      obtain ⟨-, h2⟩ := PR.ok.inj h
      subst h2
      exact ⟨rfl, rfl, rfl⟩

theorem expect_ok {st : SY} {tt : TokenType} {u : Unit} {st' : SY}
    (h : expect st tt = .ok u st') :
    st.next.typ = tt ∧ consume st = .ok u st' := by
  unfold expect at h
  split at h
  · exact ⟨by assumption, h⟩
  · cases h

theorem pushOperator_spec {st : SY} {oppos : Op × Nat} {st₁ : SY}
    (h : pushOperator st oppos = some st₁) :
    pushOpLoop st.op_stack st.exp_stack oppos =
      some (st₁.op_stack, st₁.exp_stack) ∧
    st₁.lexer = st.lexer ∧ st₁.next = st.next := by
  unfold pushOperator at h
  cases hpl : pushOpLoop st.op_stack st.exp_stack oppos with
  | none => rw [hpl] at h; cases h
  | some oe =>
    obtain ⟨o, e⟩ := oe
    rw [hpl] at h
    obtain h2 := Option.some.inj h
    rw [← h2]
    exact ⟨rfl, rfl, rfl⟩

theorem popOperator_spec {st st' : SY} (h : popOperator st = some st') :
    ∃ op pos rest, st.op_stack = (op, pos) :: rest ∧ st'.op_stack = rest ∧
      popNode op pos st.exp_stack = some st'.exp_stack ∧
      st'.lexer = st.lexer ∧ st'.next = st.next := by
  unfold popOperator at h
  cases hop : st.op_stack with
  | nil => rw [hop] at h; cases h
  | cons x rest =>
    obtain ⟨op, pos⟩ := x
    rw [hop] at h
    simp only at h
    cases hpn : popNode op pos st.exp_stack with
    | none => rw [hpn] at h; cases h
    | some e =>
      rw [hpn] at h
      obtain h2 := Option.some.inj h
      subst h2
      exact ⟨op, pos, rest, rfl, rfl, hpn, rfl, rfl⟩

theorem get_op_spec {ch : Char} {t : OpType} {op : Op}
    (h : get_op ch t = some op) :
    op ∈ OPS ∧ op.ch = ch ∧ op.typ = t := by
  unfold get_op at h
  have hmem := List.mem_of_find?_eq_some h
  have hp := List.find?_some h
  rw [decide_eq_true_eq] at hp
  exact ⟨hmem, hp.1, hp.2⟩

theorem OPS_entries : ∀ op ∈ OPS, op.typ ≠ OpType.Sentinel ∧ 1 ≤ op.prec := by
  decide

/-- Splitting an operator stack at its first sentinel: a sentinel-free prefix
of a decomposition lands inside the sentinel-free part. -/
theorem split_at_sentinel :
    ∀ (xs : List (Op × Nat)) {ys zs : List (Op × Nat)} {hs : Op × Nat}
      {ws : List (Op × Nat)},
      xs ++ ys = zs ++ hs :: ws → noSent xs → noSent zs →
      hs.1.typ = OpType.Sentinel →
      ∃ t, zs = xs ++ t ∧ ys = t ++ hs :: ws := by
  intro xs
  induction xs with
  | nil =>
    intro ys zs hs ws h _ _ _
    exact ⟨zs, rfl, h⟩
  | cons x xs' ih =>
    intro ys zs hs ws h hx hz hhs
    cases zs with
    | nil =>
      simp only [List.nil_append, List.cons_append, List.cons.injEq] at h
      exact absurd (h.1 ▸ hhs) (hx x (by simp))
    | cons z zs' =>
      simp only [List.cons_append, List.cons.injEq] at h
      obtain ⟨rfl, h2⟩ := h
      obtain ⟨t, ht1, ht2⟩ :=
        ih h2 (fun y hy => hx y (by simp [hy])) (fun y hy => hz y (by simp [hy])) hhs
      exact ⟨t, by rw [ht1]; rfl, ht2⟩

/-- Strengthened characterisation used by the invariant: the popped entries
are also sentinel-free (their reductions succeeded, and `pop_operator`
panics on a sentinel). -/
theorem pushOpLoop_noSent :
    ∀ (σ : List (Op × Nat)) (exps : List AstNode) (op : Op) (pos : Nat)
      (σ' : List (Op × Nat)) (exps' : List AstNode),
      pushOpLoop σ exps (op, pos) = some (σ', exps') →
      ∃ popped hd τ,
        σ = popped ++ hd :: τ ∧
        σ' = (op, pos) :: hd :: τ ∧
        noSent popped ∧
        exps'.length + countB popped = exps.length := by
  intro σ
  induction σ with
  | nil => intro exps op pos σ' exps' h; cases h
  | cons top rest ih =>
    intro exps op pos σ' exps' h
    obtain ⟨topOp, topPos⟩ := top
    cases hgt : has_greater_prec topOp op with
    | true =>
      simp only [pushOpLoop, hgt, if_true] at h
      cases hpn : popNode topOp topPos exps with
      | none => rw [hpn] at h; cases h
      | some e =>
        rw [hpn] at h
        obtain ⟨popped, hd, τ, h1, h2, h3, h5⟩ := ih e op pos σ' exps' h
        refine ⟨(topOp, topPos) :: popped, hd, τ, by rw [h1]; rfl, h2, ?_, ?_⟩
        · intro x hx
          rcases List.mem_cons.mp hx with rfl | hx
          · exact (popNode_spec hpn).1
          · exact h3 x hx
        · have hpop := (popNode_spec hpn).2
          have hcb : countB ((topOp, topPos) :: popped) =
              (if topOp.typ = OpType.Binary then 1 else 0) + countB popped :=
            countB_cons (topOp, topPos) popped
          omega
    | false =>
      simp only [pushOpLoop, hgt, Bool.false_eq_true, if_false,
        Option.some.injEq, Prod.mk.injEq] at h
      obtain ⟨h1, h2⟩ := h
      refine ⟨[], (topOp, topPos), rest, rfl, h1.symm, ?_, by simp [countB, h2]⟩
      intro x hx
      simp at hx

theorem drainLoop_eq :
    ∀ (α : List (Op × Nat)) {ρ : List (Op × Nat)} {exps : List AstNode}
      {σ' : List (Op × Nat)} {exps' : List AstNode},
      noSent α → headSent ρ →
      drainLoop (α ++ ρ) exps = some (σ', exps') →
      σ' = ρ ∧ exps'.length + countB α = exps.length := by
  intro α
  induction α with
  | nil =>
    intro ρ exps σ' exps' _ hρ h
    cases ρ with
    | nil => cases hρ
    | cons hd ρ₂ =>
      obtain ⟨hdOp, hdPos⟩ := hd
      have hsent : hdOp.typ = OpType.Sentinel := hρ
      simp only [List.nil_append, drainLoop, hsent, if_true,
        Option.some.injEq, Prod.mk.injEq] at h
      obtain ⟨h1, h2⟩ := h
      exact ⟨h1.symm, by simp [countB, h2]⟩
  | cons x α' ih =>
    intro ρ exps σ' exps' hα hρ h
    obtain ⟨xOp, xPos⟩ := x
    have hx : xOp.typ ≠ OpType.Sentinel := hα (xOp, xPos) (by simp)
    simp only [List.cons_append, drainLoop, hx, if_false] at h
    cases hpn : popNode xOp xPos exps with
    | none => rw [hpn] at h; cases h
    | some e =>
      rw [hpn] at h
      obtain ⟨h1, h2⟩ := ih (fun y hy => hα y (by simp [hy])) hρ h
      have hpop := (popNode_spec hpn).2
      have hcb : countB ((xOp, xPos) :: α') =
          (if xOp.typ = OpType.Binary then 1 else 0) + countB α' :=
        countB_cons (xOp, xPos) α'
      exact ⟨h1, by omega⟩

/-- Effect of `push_operator` on a stack `α ++ ρ` whose sentinel-free top
segment is `α`: the pops stay inside `α` (the sentinel heading `ρ` never
satisfies `has_greater_prec`, and reduced entries are never sentinels), and
the pushed operator tops the stack. -/
theorem pushOperator_decomp {st st₁ : SY} {op : Op} {pos : Nat}
    {α ρ : List (Op × Nat)}
    (hpo : pushOperator st (op, pos) = some st₁)
    (hσ : st.op_stack = α ++ ρ) (hα : noSent α) (hρ : headSent ρ)
    (hopTyp : op.typ ≠ OpType.Sentinel) :
    ∃ popped α₁,
      α = popped ++ α₁ ∧
      st₁.op_stack = ((op, pos) :: α₁) ++ ρ ∧
      noSent ((op, pos) :: α₁) ∧
      st₁.exp_stack.length + countB popped = st.exp_stack.length ∧
      countB α = countB popped + countB α₁ ∧
      st₁.lexer = st.lexer ∧ st₁.next = st.next := by
  obtain ⟨hpl, hlex, hnx⟩ := pushOperator_spec hpo
  obtain ⟨popped, hd, τ, hdec, hσ₁, hns, hlen1⟩ :=
    pushOpLoop_noSent _ _ _ _ _ _ hpl
  cases ρ with
  | nil => cases hρ
  | cons hs ρ₂ =>
    obtain ⟨hsOp, hsPos⟩ := hs
    have hsent : (hsOp, hsPos).1.typ = OpType.Sentinel := hρ
    obtain ⟨α₁, hz, hy⟩ :=
      split_at_sentinel popped (hdec.symm.trans hσ) hns hα hsent
    refine ⟨popped, α₁, hz, ?_, ?_, hlen1, ?_, hlex, hnx⟩
    · rw [hσ₁, hy]
      rfl
    · intro x hx
      rcases List.mem_cons.mp hx with rfl | hx
      · exact hopTyp
      · exact hα x (by rw [hz]; exact List.mem_append_right popped hx)
    · rw [hz, countB_append]

/-- The central stack-discipline invariant of the shunting-yard parser, by
induction on fuel, simultaneously for the four parsing functions.  On every
successful run, `parse_p` adds one net subtree, `parse_e`'s operator loop
preserves the balance `exp_stack − #binary-ops`, `parse_e` restores its
operator stack exactly and adds exactly one subtree, and `parse_parens`
restores both stacks. -/
theorem stackInv : ∀ fuel : Nat,
    (∀ (st st' : SY) (α ρ : List (Op × Nat)),
       parseP fuel st = .ok () st' →
       st.op_stack = α ++ ρ → noSent α → headSent ρ →
       ∃ α', st'.op_stack = α' ++ ρ ∧ noSent α' ∧
         st'.exp_stack.length + countB α =
           st.exp_stack.length + countB α' + 1) ∧
    (∀ (st st' : SY) (α ρ : List (Op × Nat)),
       parseELoop fuel st = .ok () st' →
       st.op_stack = α ++ ρ → noSent α → headSent ρ →
       ∃ α', st'.op_stack = α' ++ ρ ∧ noSent α' ∧
         st'.exp_stack.length + countB α = st.exp_stack.length + countB α') ∧
    (∀ (st st' : SY) (ρ : List (Op × Nat)),
       parseE fuel st = .ok () st' →
       st.op_stack = ρ → headSent ρ →
       st'.op_stack = ρ ∧ st'.exp_stack.length = st.exp_stack.length + 1) ∧
    (∀ (st : SY) (pos : Nat) (t : AstNode) (st' : SY),
       parseParens fuel st pos = .ok t st' →
       st'.op_stack = st.op_stack ∧
       st'.exp_stack.length = st.exp_stack.length) := by
  intro fuel
  induction fuel with
  | zero =>
    refine ⟨?_, ?_, ?_, ?_⟩
    · intro st st' α ρ h
      simp [parseP] at h
    · intro st st' α ρ h
      simp [parseELoop] at h
    · intro st st' ρ h
      simp [parseE] at h
    · intro st pos t st' h
      simp [parseParens] at h
  | succ n ih =>
    obtain ⟨ihP, ihLoop, ihE, ihParens⟩ := ih
    refine ⟨?_, ?_, ?_, ?_⟩
    -- parse_p
    · intro st st' α ρ h hσ hα hρ
      simp only [parseP] at h
      split at h
      next lit pos hnext =>
          obtain ⟨hop, hexp, -⟩ := consume_ok h
          refine ⟨α, by rw [hop]; exact hσ, hα, ?_⟩
          have he : st'.exp_stack =
              AstNode.mk (.Number lit) pos :: st.exp_stack := hexp
          rw [he]
          simp only [List.length_cons]
          omega
      next s pos hnext =>
          obtain ⟨u, st₁, hc, h⟩ := PR.bind_eq_ok h
          obtain ⟨hop1, hexp1, -⟩ := consume_ok hc
          by_cases hm : matchStartingParens st₁ = true
          · simp only [hm, if_true] at h
            obtain ⟨t, st₂, hpp, h⟩ := PR.bind_eq_ok h
            obtain ⟨hop2, hlen2⟩ := ihParens st₁ pos t st₂ hpp
            obtain ⟨-, h2⟩ := PR.ok.inj h
            subst h2
            refine ⟨α, ?_, hα, ?_⟩
            · show st₂.op_stack = α ++ ρ
              rw [hop2, hop1]
              exact hσ
            · show (AstNode.mk (.Func s t) pos :: st₂.exp_stack).length +
                  countB α = st.exp_stack.length + countB α + 1
              have he1 : st₁.exp_stack.length = st.exp_stack.length := by
                rw [hexp1]
              simp only [List.length_cons]
              omega
          · simp only [hm, if_false, Bool.false_eq_true] at h
            obtain ⟨-, h2⟩ := PR.ok.inj h
            subst h2
            refine ⟨α, ?_, hα, ?_⟩
            · show st₁.op_stack = α ++ ρ
              rw [hop1]
              exact hσ
            · show (AstNode.mk (.Ident s) pos :: st₁.exp_stack).length +
                  countB α = st.exp_stack.length + countB α + 1
              have he1 : st₁.exp_stack.length = st.exp_stack.length := by
                rw [hexp1]
              simp only [List.length_cons]
              omega
      next ch pos hnext =>
          by_cases hch : ch = '('
          · subst hch
            rw [if_pos rfl] at h
            obtain ⟨t, st₁, hpp, h⟩ := PR.bind_eq_ok h
            obtain ⟨hop1, hlen1⟩ := ihParens st pos t st₁ hpp
            obtain ⟨-, h2⟩ := PR.ok.inj h
            subst h2
            refine ⟨α, ?_, hα, ?_⟩
            · show st₁.op_stack = α ++ ρ
              rw [hop1]
              exact hσ
            · show (AstNode.mk (.Parens t) pos :: st₁.exp_stack).length +
                  countB α = st.exp_stack.length + countB α + 1
              simp only [List.length_cons]
              omega
          · rw [if_neg hch] at h
            split at h
            next op hgo =>
              split at h
              next hpo => cases h
              next st₁ hpo =>
                obtain ⟨u, st₂, hc, h⟩ := PR.bind_eq_ok h
                obtain ⟨hop2, hexp2, -⟩ := consume_ok hc
                have hopTyp : op.typ ≠ OpType.Sentinel := by
                  intro hcon
                  rw [(get_op_spec hgo).2.2] at hcon
                  cases hcon
                obtain ⟨popped, α₁, hz, hσ₁, hns₁, hlen1, hcb, -, -⟩ :=
                  pushOperator_decomp hpo hσ hα hρ hopTyp
                obtain ⟨α₂, hop', hns₂, hlen₂⟩ :=
                  ihP st₂ st' ((op, pos) :: α₁) ρ h
                    (by rw [hop2]; exact hσ₁) hns₁ hρ
                refine ⟨α₂, hop', hns₂, ?_⟩
                have hcb2 : countB ((op, pos) :: α₁) = countB α₁ := by
                  rw [countB_cons]
                  have ht := (get_op_spec hgo).2.2
                  simp [ht]
                rw [hcb2] at hlen₂
                have he2 : st₂.exp_stack.length = st₁.exp_stack.length := by
                  rw [hexp2]
                omega
            next hgo => cases h
      next pos hnext =>
          cases h
    -- parse_e's operator loop
    · intro st st' α ρ h hσ hα hρ
      simp only [parseELoop] at h
      split at h
      next ch pos hnext =>
          split at h
          next op hgb =>
            split at h
            next hpo => cases h
            next st₁ hpo =>
              obtain ⟨u, st₂, hc, h⟩ := PR.bind_eq_ok h
              obtain ⟨hop2, hexp2, -⟩ := consume_ok hc
              obtain ⟨v, st₃, hpp, h⟩ := PR.bind_eq_ok h
              have hopTyp : op.typ ≠ OpType.Sentinel := by
                intro hcon
                rw [(get_op_spec hgb).2.2] at hcon
                cases hcon
              obtain ⟨popped, α₁, hz, hσ₁, hns₁, hlen1, hcb, -, -⟩ :=
                pushOperator_decomp hpo hσ hα hρ hopTyp
              obtain ⟨α₂, hop₃, hns₂, hlen₂⟩ :=
                ihP st₂ st₃ ((op, pos) :: α₁) ρ hpp
                  (by rw [hop2]; exact hσ₁) hns₁ hρ
              obtain ⟨α₃, hop', hns₃, hlen₃⟩ :=
                ihLoop st₃ st' α₂ ρ h hop₃ hns₂ hρ
              refine ⟨α₃, hop', hns₃, ?_⟩
              have hcb2 : countB ((op, pos) :: α₁) = 1 + countB α₁ := by
                rw [countB_cons]
                have ht := (get_op_spec hgb).2.2
                simp [ht]
              rw [hcb2] at hlen₂
              have he2 : st₂.exp_stack.length = st₁.exp_stack.length := by
                rw [hexp2]
              omega
          next hgb =>
            split at h
            next op hgp =>
              split at h
              next hpo => cases h
              next st₁ hpo =>
                split at h
                next hpop => cases h
                next st₂ hpop =>
                  obtain ⟨u, st₃, hc, h⟩ := PR.bind_eq_ok h
                  obtain ⟨hop3, hexp3, -⟩ := consume_ok hc
                  have hopTyp : op.typ ≠ OpType.Sentinel := by
                    intro hcon
                    rw [(get_op_spec hgp).2.2] at hcon
                    cases hcon
                  obtain ⟨popped, α₁, hz, hσ₁, hns₁, hlen1, hcb, -, -⟩ :=
                    pushOperator_decomp hpo hσ hα hρ hopTyp
                  obtain ⟨o, p, rest, ho1, ho2, hpn, -, -⟩ :=
                    popOperator_spec hpop
                  have hinj : (o, p) :: rest = (op, pos) :: (α₁ ++ ρ) := by
                    rw [← ho1, hσ₁]
                    rfl
                  simp only [List.cons.injEq, Prod.mk.injEq] at hinj
                  obtain ⟨⟨rfl, rfl⟩, hrest⟩ := hinj
                  have hpnlen := (popNode_spec hpn).2
                  have ht := (get_op_spec hgp).2.2
                  rw [ht] at hpnlen
                  simp at hpnlen
                  have hns₁' : noSent α₁ :=
                    fun x hx => hns₁ x (List.mem_cons_of_mem _ hx)
                  obtain ⟨α₃, hop', hns₃, hlen₃⟩ :=
                    ihLoop st₃ st' α₁ ρ h
                      (by rw [hop3, ho2, hrest]) hns₁' hρ
                  refine ⟨α₃, hop', hns₃, ?_⟩
                  have he3 : st₃.exp_stack.length = st₂.exp_stack.length := by
                    rw [hexp3]
                  omega
            next hgp =>
              obtain ⟨-, h2⟩ := PR.ok.inj h
              subst h2
              exact ⟨α, hσ, hα, rfl⟩
      next =>
          obtain ⟨-, h2⟩ := PR.ok.inj h
          subst h2
          exact ⟨α, hσ, hα, rfl⟩
    -- parse_e
    · intro st st' ρ h hσ hρ
      simp only [parseE] at h
      obtain ⟨u, st₁, hp, h⟩ := PR.bind_eq_ok h
      obtain ⟨v, st₂, hl, h⟩ := PR.bind_eq_ok h
      obtain ⟨α₁, hσ₁, hns₁, hlen₁⟩ :=
        ihP st st₁ [] ρ hp (by rw [hσ]; rfl) (by intro x hx; cases hx) hρ
      obtain ⟨α₂, hσ₂, hns₂, hlen₂⟩ := ihLoop st₁ st₂ α₁ ρ hl hσ₁ hns₁ hρ
      cases hd : drainLoop st₂.op_stack st₂.exp_stack with
      | none => rw [hd] at h; cases h
      | some oe =>
        obtain ⟨o, e⟩ := oe
        rw [hd] at h
        obtain ⟨-, h2⟩ := PR.ok.inj h
        subst h2
        rw [hσ₂] at hd
        obtain ⟨ho, he⟩ := drainLoop_eq α₂ hns₂ hρ hd
        have h0 : countB ([] : List (Op × Nat)) = 0 := rfl
        refine ⟨ho, ?_⟩
        show e.length = st.exp_stack.length + 1
        omega
    -- parse_parens
    · intro st pos t st' h
      simp only [parseParens] at h
      split at h
      · obtain ⟨u, st₁, hc, h⟩ := PR.bind_eq_ok h
        obtain ⟨hop1, hexp1, -⟩ := consume_ok hc
        obtain ⟨v, st₃, hE, h⟩ := PR.bind_eq_ok h
        obtain ⟨hop3, hlen3⟩ :=
          ihE _ st₃ ((SENTINEL, pos) :: st₁.op_stack) hE rfl rfl
        obtain ⟨w, st₄, hx, h⟩ := PR.bind_eq_ok h
        obtain ⟨-, hc4⟩ := expect_ok hx
        obtain ⟨hop4, hexp4, -⟩ := consume_ok hc4
        have hlen3' : st₃.exp_stack.length = st₁.exp_stack.length + 1 := hlen3
        have hlen4 : st₄.exp_stack.length = st.exp_stack.length + 1 := by
          rw [hexp4, hlen3', hexp1]
        rw [hop4, hop3] at h
        cases hexp : st₄.exp_stack with
        | nil => rw [hexp] at hlen4; simp at hlen4
        | cons t₀ exps =>
          rw [hexp] at h
          obtain ⟨ht, h2⟩ := PR.ok.inj h
          subst h2
          constructor
          · exact hop1
          · show exps.length = st.exp_stack.length
            rw [hexp] at hlen4
            simp only [List.length_cons] at hlen4
            omega
      · cases h

/-- Claim C7: on any successful parse — whenever the top-level `parse_e` and
the final `expect(End)` have both returned `Ok` from the initial state built
by `parse` (one sentinel on the operator stack, empty expression stack) —
the expression stack holds exactly one subtree and the operator stack holds
exactly the initial sentinel, so the two `assert_eq!` checks in
`ShuntingYard::parse` never fire on a successful parse. -/
theorem c7_assertions_never_fire (text : String) (fuel : Nat) (t : Token)
    (l₁ : Lexer) (st₁ st₂ : SY)
    (h₀ : nextToken (Lexer.new text) = some (.ok t, l₁))
    (h₁ : parseE fuel
            { lexer := l₁, next := t, op_stack := [(SENTINEL, 0)],
              exp_stack := [] } = .ok () st₁)
    (h₂ : expect st₁ TokenType.End = .ok () st₂) :
    st₂.exp_stack.length = 1 ∧ st₂.op_stack = [(SENTINEL, 0)] := by
  obtain ⟨hop1, hlen1⟩ :=
    (stackInv fuel).2.2.1 _ st₁ [(SENTINEL, 0)] h₁ rfl rfl
  obtain ⟨-, hcons⟩ := expect_ok h₂
  obtain ⟨hop2, hexp2, -⟩ := consume_ok hcons
  constructor
  · rw [hexp2]
    exact hlen1
  · rw [hop2]
    exact hop1

/-- Witness for C7 on the successful parse of `"3"`. -/
theorem c7_assertions_never_fire_witness :
    ({ lexer := { text := [], pos := 1, error := none },
       next := { typ := TokenType.End, pos := 1 },
       op_stack := [(SENTINEL, 0)],
       exp_stack := [AstNode.mk (.Number "3") 0] } : SY).exp_stack.length = 1 ∧
    ({ lexer := { text := [], pos := 1, error := none },
       next := { typ := TokenType.End, pos := 1 },
       op_stack := [(SENTINEL, 0)],
       exp_stack := [AstNode.mk (.Number "3") 0] } : SY).op_stack =
      [(SENTINEL, 0)] :=
  c7_assertions_never_fire "3" 3 { typ := .Number "3", pos := 0 }
    { text := [], pos := 1, error := none }
    { lexer := { text := [], pos := 1, error := none },
      next := { typ := TokenType.End, pos := 1 },
      op_stack := [(SENTINEL, 0)],
      exp_stack := [AstNode.mk (.Number "3") 0] }
    { lexer := { text := [], pos := 1, error := none },
      next := { typ := TokenType.End, pos := 1 },
      op_stack := [(SENTINEL, 0)],
      exp_stack := [AstNode.mk (.Number "3") 0] }
    rfl rfl rfl

/-! ## Claim C10: inputs whose token stream contains an equals sign -/

/-- The token stream from state `(t, l)` (lookahead `t`, lexer `l`) contains
a `SingleCharOperator('=')` before end-of-input: either the lookahead is it,
or the lookahead is not `End` and the stream continued by the next
`next_token` call contains it. -/
inductive HasEq : Token → Lexer → Prop where
  | here (t : Token) (l : Lexer) : t.typ = .OpSingle '=' → HasEq t l
  | later (t t' : Token) (l l' : Lexer) :
      t.typ ≠ .End → nextToken l = some (.ok t', l') → HasEq t' l' →
      HasEq t l

/-- The token stream of `text` contains a `SingleCharOperator('=')`. -/
def HasEqStart (text : String) : Prop :=
  ∃ t l', nextToken (Lexer.new text) = some (.ok t, l') ∧ HasEq t l'

theorem HasEq_End {t : Token} {l : Lexer} (h : HasEq t l)
    (hEnd : t.typ = .End) : False := by
  cases h with
  | here t l he => rw [hEnd] at he; cases he
  | later t t' l l' hne => exact hne hEnd

/-- When the stream still contains `=` and the lookahead is not `=` itself,
`consume` cannot fail (the next token exists) and afterwards the stream
still contains `=`. -/
theorem HasEq_consume_ok {st : SY} (h : HasEq st.next st.lexer)
    (hne : st.next.typ ≠ .OpSingle '=') :
    ∃ st', consume st = .ok () st' ∧ HasEq st'.next st'.lexer ∧
      st.next.typ ≠ .End := by
  cases h with
  | here _ _ he => exact absurd he hne
  | later _ t' _ l' hnEnd hnt h2 =>
    refine ⟨{ st with lexer := l', next := t' }, ?_, h2, hnEnd⟩
    unfold consume
    rw [hnt]

/-- Classification of a parser-step outcome while the remaining stream
contains `=`: success keeps `=` in the stream, an error is of the `Parse`
kind, and a panic is a panic. -/
def C10Post {α : Type} (r : PR α) : Prop :=
  match r with
  | .ok _ st' => HasEq st'.next st'.lexer
  | .err e => ∃ m, e = ParseError.Parse m
  | .panic => True

theorem C10Post_bind {α β : Type} {x : PR α} {f : α → SY → PR β}
    (hx : C10Post x)
    (hf : ∀ a st, HasEq st.next st.lexer → C10Post (f a st)) :
    C10Post (PR.bind x f) := by
  cases x with
  | ok a st => exact hf a st hx
  | err e => exact hx
  | panic => trivial

/-- While the remaining token stream contains a `'='` token, every parsing
function either succeeds with `=` still ahead of the parser, fails with a
`Parse`-kind error, or panics — never a `Lex` or `Float` error; in
particular the `=` token is never consumed. -/
theorem eqTrace : ∀ fuel : Nat,
    (∀ st : SY, HasEq st.next st.lexer → C10Post (parseP fuel st)) ∧
    (∀ st : SY, HasEq st.next st.lexer → C10Post (parseELoop fuel st)) ∧
    (∀ st : SY, HasEq st.next st.lexer → C10Post (parseE fuel st)) ∧
    (∀ (st : SY) (pos : Nat), HasEq st.next st.lexer →
       C10Post (parseParens fuel st pos)) := by
  intro fuel
  induction fuel with
  | zero =>
    refine ⟨?_, ?_, ?_, ?_⟩
    · intro st _; exact trivial
    · intro st _; exact trivial
    · intro st _; exact trivial
    · intro st pos _; exact trivial
  | succ n ih =>
    obtain ⟨ihP, ihLoop, ihE, ihParens⟩ := ih
    refine ⟨?_, ?_, ?_, ?_⟩
    -- parse_p
    · intro st hInv
      simp only [parseP]
      split
      next lit pos hnext =>
        have hne : st.next.typ ≠ .OpSingle '=' := by
          rw [hnext]
          intro hcon
          cases hcon
        obtain ⟨st', hcons, hInv', -⟩ :=
          @HasEq_consume_ok { st with
            exp_stack := AstNode.mk (.Number lit) pos :: st.exp_stack }
            hInv hne
        rw [hcons]
        exact hInv'
      next s pos hnext =>
        have hne : st.next.typ ≠ .OpSingle '=' := by
          rw [hnext]
          intro hcon
          cases hcon
        obtain ⟨st₁, hcons, hInv₁, -⟩ := HasEq_consume_ok hInv hne
        rw [hcons]
        simp only [PR.bind]
        by_cases hm : matchStartingParens st₁ = true
        · rw [if_pos hm]
          refine C10Post_bind (ihParens st₁ pos hInv₁) ?_
          intro a st₂ hInv₂
          exact hInv₂
        · rw [if_neg hm]
          exact hInv₁
      next ch pos hnext =>
        by_cases hch : ch = '('
        · subst hch
          rw [if_pos rfl]
          refine C10Post_bind (ihParens st pos hInv) ?_
          intro a st₁ hInv₁
          exact hInv₁
        · rw [if_neg hch]
          split
          next op hgo =>
            split
            next hpo => trivial
            next st₁ hpo =>
              obtain ⟨-, hlex, hnx⟩ := pushOperator_spec hpo
              have hInv₁ : HasEq st₁.next st₁.lexer := by
                rw [hlex, hnx]
                exact hInv
              have hops : ∀ o ∈ OPS, o.ch ≠ '=' := by decide
              have hchne : ch ≠ '=' := by
                obtain ⟨hmem, hc, -⟩ := get_op_spec hgo
                rw [← hc]
                exact hops op hmem
              have hne₁ : st₁.next.typ ≠ .OpSingle '=' := by
                rw [hnx, hnext]
                intro hcon
                exact hchne (TokenType.OpSingle.inj hcon)
              obtain ⟨st₂, hcons, hInv₂, -⟩ := HasEq_consume_ok hInv₁ hne₁
              rw [hcons]
              simp only [PR.bind]
              exact ihP st₂ hInv₂
          next hgo => exact ⟨_, rfl⟩
      next pos hnext => exact ⟨_, rfl⟩
    -- parse_e loop
    · intro st hInv
      simp only [parseELoop]
      split
      next ch pos hnext =>
        split
        next op hgb =>
          split
          next hpo => trivial
          next st₁ hpo =>
            obtain ⟨-, hlex, hnx⟩ := pushOperator_spec hpo
            have hInv₁ : HasEq st₁.next st₁.lexer := by
              rw [hlex, hnx]
              exact hInv
            have hops : ∀ o ∈ OPS, o.ch ≠ '=' := by decide
            have hchne : ch ≠ '=' := by
              obtain ⟨hmem, hc, -⟩ := get_op_spec hgb
              rw [← hc]
              exact hops op hmem
            have hne₁ : st₁.next.typ ≠ .OpSingle '=' := by
              rw [hnx, hnext]
              intro hcon
              exact hchne (TokenType.OpSingle.inj hcon)
            obtain ⟨st₂, hcons, hInv₂, -⟩ := HasEq_consume_ok hInv₁ hne₁
            rw [hcons]
            simp only [PR.bind]
            refine C10Post_bind (ihP st₂ hInv₂) ?_
            intro a st₃ hInv₃
            exact ihLoop st₃ hInv₃
        next hgb =>
          split
          next op hgp =>
            split
            next hpo => trivial
            next st₁ hpo =>
              split
              next hpop => trivial
              next st₂ hpop =>
                obtain ⟨-, hlex, hnx⟩ := pushOperator_spec hpo
                obtain ⟨o, p, rest, -, -, -, hlex2, hnx2⟩ :=
                  popOperator_spec hpop
                have hInv₂ : HasEq st₂.next st₂.lexer := by
                  rw [hlex2, hnx2, hlex, hnx]
                  exact hInv
                have hops : ∀ o2 ∈ OPS, o2.ch ≠ '=' := by decide
                have hchne : ch ≠ '=' := by
                  obtain ⟨hmem, hc, -⟩ := get_op_spec hgp
                  rw [← hc]
                  exact hops op hmem
                have hne₂ : st₂.next.typ ≠ .OpSingle '=' := by
                  rw [hnx2, hnx, hnext]
                  intro hcon
                  exact hchne (TokenType.OpSingle.inj hcon)
                obtain ⟨st₃, hcons, hInv₃, -⟩ := HasEq_consume_ok hInv₂ hne₂
                rw [hcons]
                simp only [PR.bind]
                exact ihLoop st₃ hInv₃
          next hgp => exact hInv
      next => exact hInv
    -- parse_e
    · intro st hInv
      simp only [parseE]
      refine C10Post_bind (ihP st hInv) ?_
      intro a st₁ hInv₁
      refine C10Post_bind (ihLoop st₁ hInv₁) ?_
      intro b st₂ hInv₂
      split
      next => trivial
      next o e hd => exact hInv₂
    -- parse_parens
    · intro st pos hInv
      simp only [parseParens]
      split
      next hch =>
        have hne : st.next.typ ≠ .OpSingle '=' := by
          rw [hch]
          decide
        obtain ⟨st₁, hcons, hInv₁, -⟩ := HasEq_consume_ok hInv hne
        rw [hcons]
        simp only [PR.bind]
        have hInv₁' :
            HasEq ({ st₁ with
              op_stack := (SENTINEL, pos) :: st₁.op_stack } : SY).next
              ({ st₁ with
                op_stack := (SENTINEL, pos) :: st₁.op_stack } : SY).lexer :=
          hInv₁
        refine C10Post_bind (ihE _ hInv₁') ?_
        intro a st₃ hInv₃
        refine C10Post_bind ?_ ?_
        · unfold expect
          split
          next hrp =>
            have hne₃ : st₃.next.typ ≠ .OpSingle '=' := by
              rw [hrp]
              decide
            obtain ⟨st₄, hcons₄, hInv₄, -⟩ := HasEq_consume_ok hInv₃ hne₃
            rw [hcons₄]
            exact hInv₄
          next hrp => exact ⟨_, rfl⟩
        · intro b st₄ hInv₄
          split
          next => trivial
          next x ops hop =>
            split
            next => trivial
            next t exps hexp => exact hInv₄
      next hch => trivial

/-- Counterexample to claim C10 as stated: the token stream of `"2^-3="`
contains a `SingleCharOperator('=')` token, yet `parse` does not return an
error of the `Parse` kind — it panics (the prefix-pop expression-stack
underflow, see C5) before the parser ever reaches the `=`. -/
theorem c10_counterexample :
    HasEqStart "2^-3=" ∧ parse "2^-3=" = ParseResult.panic := by
  constructor
  · refine ⟨{ typ := .Number "2", pos := 0 },
            { text := "^-3=".data, pos := 1, error := none }, rfl, ?_⟩
    refine .later _ { typ := .OpSingle '^', pos := 1 } _
      { text := "-3=".data, pos := 2, error := none } (by decide) rfl ?_
    refine .later _ { typ := .OpSingle '-', pos := 2 } _
      { text := "3=".data, pos := 3, error := none } (by decide) rfl ?_
    refine .later _ { typ := .Number "3", pos := 3 } _
      { text := "=".data, pos := 4, error := none } (by decide) rfl ?_
    refine .later _ { typ := .OpSingle '=', pos := 4 } _
      { text := [], pos := 5, error := none } (by decide) rfl ?_
    exact .here _ _ rfl
  · rfl

/-- Claim C10 (amended): whenever the token stream of the input contains a
`SingleCharOperator('=')` token, `parse` never returns a tree: it returns an
error of the `Parse` kind or panics (via the prefix-pop underflow of C5);
since no tree is ever returned, no AST node returned by `parse` contains
`'='`. -/
theorem c10_eq_blocks_parse (text : String) (h : HasEqStart text) :
    (parse text = ParseResult.panic ∨
     ∃ m, parse text = ParseResult.error (.Parse m)) ∧
    ∀ ast, parse text ≠ ParseResult.ok ast := by
  obtain ⟨t, l', hnt, heq⟩ := h
  have hparse : parse text =
      syParse (4 * (text.length + 2))
        { lexer := l', next := t, op_stack := [(SENTINEL, 0)],
          exp_stack := [] } := by
    simp only [parse, hnt]
  have hInv : HasEq
      ({ lexer := l', next := t, op_stack := [(SENTINEL, 0)],
         exp_stack := [] } : SY).next
      ({ lexer := l', next := t, op_stack := [(SENTINEL, 0)],
         exp_stack := [] } : SY).lexer := heq
  have hpe := (eqTrace (4 * (text.length + 2))).2.2.1 _ hInv
  have key : parse text = ParseResult.panic ∨
      ∃ m, parse text = ParseResult.error (.Parse m) := by
    rw [hparse]
    unfold syParse
    cases hres : parseE (4 * (text.length + 2))
        { lexer := l', next := t, op_stack := [(SENTINEL, 0)],
          exp_stack := [] } with
    | panic => exact Or.inl rfl
    | err e =>
      rw [hres] at hpe
      have hpe' : ∃ m, e = ParseError.Parse m := hpe
      obtain ⟨m, rfl⟩ := hpe'
      exact Or.inr ⟨m, rfl⟩
    | ok u st₁ =>
      rw [hres] at hpe
      have hInv₁ : HasEq st₁.next st₁.lexer := hpe
      show syFinish st₁ = ParseResult.panic ∨
        ∃ m, syFinish st₁ = ParseResult.error (.Parse m)
      unfold syFinish
      by_cases hEnd : st₁.next.typ = TokenType.End
      · exact (HasEq_End hInv₁ hEnd).elim
      · have hexp : expect st₁ TokenType.End =
            .err (.Parse ("Expected " ++ ttDebug TokenType.End ++
              " of expression, but got " ++ ttDebug st₁.next.typ ++
              " at position " ++ toString st₁.next.pos)) := by
          unfold expect
          rw [if_neg hEnd]
        rw [hexp]
        exact Or.inr ⟨_, rfl⟩
  refine ⟨key, ?_⟩
  intro ast hast
  rcases key with hk | ⟨m, hk⟩ <;> rw [hast] at hk <;> cases hk

/-- Witness for C10 (amended) at the input `"3="`. -/
theorem c10_eq_blocks_parse_witness :
    (parse "3=" = ParseResult.panic ∨
     ∃ m, parse "3=" = ParseResult.error (.Parse m)) ∧
    ∀ ast, parse "3=" ≠ ParseResult.ok ast :=
  c10_eq_blocks_parse "3="
    ⟨{ typ := .Number "3", pos := 0 },
     { text := "=".data, pos := 1, error := none }, rfl,
     .later _ { typ := .OpSingle '=', pos := 1 } _
       { text := [], pos := 2, error := none } (by decide) rfl
       (.here _ _ rfl)⟩


end ParseMath
